import Mathlib

/-!
Verification of the tool-execution layer of a task-solving agent.

The development shallowly embeds the four core operations of the
repository (the sandboxed python-file executor, the text/binary content
sniffer, the attachment presenter, the transcript fetcher post-processing
and its retry machinery, and the web-search chunk reducer) as pure Lean
functions over lists of characters and bytes, and proves the spec-level
properties about them.

Strings are modelled as `List Char`; byte buffers as `List Nat` (each
entry < 256).  External effects (the filesystem, the spawned process,
the network loader) are modelled as explicit inputs describing the
outcome the environment produced.
-/

namespace Agent

/-- Whitespace characters recognised by python's `str.strip` / `str.split`
(ASCII fragment). -/
def pyIsSpace (c : Char) : Bool :=
  c = ' ' || c = '\t' || c = '\n' || c = '\r' || c = '\x0b' || c = '\x0c'

/-- `str.strip`: remove leading and trailing whitespace. -/
def pyStrip (l : List Char) : List Char :=
  ((l.dropWhile pyIsSpace).reverse.dropWhile pyIsSpace).reverse

/-- String-level `str.strip`. -/
def pyStripS (s : String) : String :=
  String.mk (pyStrip s.data)

/-- Tokeniser worker for `str.split()`: `cur` holds the (reversed)
characters of the token being read. -/
def splitWsAux (cur : List Char) : List Char → List (List Char)
  | [] => if cur.isEmpty then [] else [cur.reverse]
  | c :: cs =>
    if pyIsSpace c then
      if cur.isEmpty then splitWsAux [] cs
      else cur.reverse :: splitWsAux [] cs
    else splitWsAux (c :: cur) cs

/-- `str.split()` with no argument: split on runs of whitespace, dropping
empty tokens. -/
def splitWs (l : List Char) : List (List Char) :=
  splitWsAux [] l

/-- Digits (with python's single-underscore grouping) after the first
digit of an integer literal; accumulates the value. -/
def digitsRest (acc : Nat) : List Char → Option Nat
  | [] => some acc
  | '_' :: c :: cs =>
    if c.isDigit then digitsRest (acc * 10 + (c.toNat - 48)) cs else none
  | c :: cs =>
    if c.isDigit then digitsRest (acc * 10 + (c.toNat - 48)) cs else none

/-- Python `int(s)` on a decimal string: optional surrounding whitespace,
optional sign, digits with optional single underscores between them.
Returns `none` where `int` raises `ValueError`. -/
def pyIntParse (l : List Char) : Option Int :=
  match pyStrip l with
  | '+' :: c :: cs =>
    if c.isDigit then (digitsRest (c.toNat - 48) cs).map Int.ofNat else none
  | '-' :: c :: cs =>
    if c.isDigit then (digitsRest (c.toNat - 48) cs).map (fun n => -(Int.ofNat n))
    else none
  | c :: cs =>
    if c.isDigit then (digitsRest (c.toNat - 48) cs).map Int.ofNat else none
  | [] => none

/-- The token scan in `execute_python_file`: return the value of the first
whitespace-separated token that `int` accepts. -/
def firstIntToken : List (List Char) → Option Int
  | [] => none
  | t :: ts =>
    match pyIntParse t with
    | some n => some n
    | none => firstIntToken ts

/-- Outcome of the spawned child process, as observed by
`subprocess.run`: either the process ran (for `duration` seconds,
producing streams and an exit code), or spawning raised. -/
inductive RunBehavior : Type
  | runs (duration : Nat) (stdout stderr : String) (returncode : Int)
  | subprocessError (msg : String)
  | otherError (msg : String)

/-- The wall-clock timeout passed to `subprocess.run` (seconds). -/
def executeTimeoutSeconds : Nat := 180

/-- The sentinel returned when `subprocess.TimeoutExpired` is caught. -/
def timeoutSentinel : String := "Error: Execution timed out after 60 seconds"

/-- `execute_python_file` from `tools/utils.py`.  The filesystem check and
the child-process outcome are inputs: `pathExists` models
`os.path.exists(file_path)` and `behavior` models what the spawned
process did.  A run whose duration exceeds the timeout raises
`TimeoutExpired` inside `subprocess.run`. -/
def execute_python_file (pathExists : Bool) (file_path : String)
    (behavior : RunBehavior) : String :=
  if !pathExists then "Error: File not found: " ++ file_path
  else if !((".py" : String).data.isSuffixOf file_path.data) then
    "Error: File is not a Python file: " ++ file_path
  else
    match behavior with
    | .runs duration stdout stderr returncode =>
      if executeTimeoutSeconds < duration then timeoutSentinel
      else if stderr ≠ "" ∧ returncode ≠ 0 then
        "Error: " ++ pyStripS stderr
      else if stderr ≠ "" then
        pyStripS stdout ++ "\nWarnings/Info: " ++ pyStripS stderr
      else
        match firstIntToken (splitWs stdout.data) with
        | some n => toString n
        | none =>
          if pyStripS stdout ≠ "" then pyStripS stdout
          else "Script executed successfully with no output"
    | .subprocessError msg => "Error: Subprocess error: " ++ msg
    | .otherError msg => "Error: Unexpected error: " ++ msg

/-! ### SearchResultReducer (`tools/web.py`, `optimized_web_search`) -/

/-- Character lowercasing used to model python `str.lower()` (ASCII
fragment). -/
def lowerL (l : List Char) : List Char :=
  l.map Char.toLower

/-- The partition loop of `optimized_web_search`:
`for i in range(0, len(all_content), batch_size): batches.append(all_content[i:i+batch_size])`.
For `batch_size = 0` python's `range` raises; the model returns `[]`
there (no claim concerns that case). -/
def chunkContent (batch_size : Nat) (c : List Char) : List (List Char) :=
  if h : c = [] ∨ batch_size = 0 then []
  else c.take batch_size :: chunkContent batch_size (c.drop batch_size)
termination_by c.length
decreasing_by
  have hc : c ≠ [] := fun hh => h (Or.inl hh)
  have hb : batch_size ≠ 0 := fun hh => h (Or.inr hh)
  simp only [List.length_drop]
  cases c with
  | nil => exact absurd rfl hc
  | cons a as => simp only [List.length_cons]; omega

/-- Substring test, python's `needle in hay` on strings. -/
def containsSub (needle hay : List Char) : Bool :=
  match hay with
  | [] => needle.isEmpty
  | _ :: t => needle.isPrefixOf hay || containsSub needle t

/-- python's `hay.index(needle)`: index of the first occurrence of
`needle` in `hay`, `none` when absent. -/
def strIndex (needle hay : List Char) : Option Nat :=
  match hay with
  | [] => if needle.isEmpty then some 0 else none
  | _ :: t =>
    if needle.isPrefixOf hay then some 0
    else (strIndex needle t).map (fun i => i + 1)

/-- The keyword filter of `optimized_web_search`:
`any(word.lower() in batch.lower() for word in important_words)`. -/
def keywordHit (important_words : List String) (batch : List Char) : Bool :=
  important_words.any (fun word => containsSub (lowerL word.data) (lowerL batch))

/-- python `repr` of a list of strings, as interpolated by the f-string
sentinel (single-quoted items, comma-space separated). -/
def pyListRepr (ws : List String) : String :=
  "[" ++ String.intercalate ", " (ws.map (fun w => "\x27" ++ w ++ "\x27")) ++ "]"

/-- The chunk-filter-join core of `optimized_web_search`, applied after
the search returned the flattened content `all_content`. -/
def optimized_web_search_core (all_content : String)
    (important_words : List String) (batch_size : Nat) : String :=
  let batches := chunkContent batch_size all_content.data
  let filtered_batches := batches.filter (keywordHit important_words)
  let filtered_content :=
    String.intercalate "\n\n" (filtered_batches.map String.mk)
  if filtered_content = "" then
    "No content containing the important words " ++ pyListRepr important_words
      ++ " was found in the search results."
  else filtered_content

/-! ### RetryingTranscriptFetcher (`tools/youtube.py`, `load_youtube`) -/

/-- `s.replace(c, "")`: remove every occurrence of a character. -/
def removeAll (c : Char) (l : List Char) : List Char :=
  l.filter (fun d => d ≠ c)

/-- The anchor-phrase post-processing of `load_youtube`: the loader
returns `doc[0].page_content.lower()`; the phrase has its periods and
question marks removed and is lowercased; on a hit the content from the
first occurrence onwards is returned, else the whole content. -/
def load_youtube_post (transcript phrase : List Char) : List Char :=
  let content := lowerL transcript
  let p := lowerL (removeAll '?' (removeAll '.' phrase))
  if containsSub p content then content.drop ((strIndex p content).getD 0)
  else content

/-- One external attempt of the backoff-decorated `_loader`: either a
transcript or an exception message. -/
def LoaderOutcome : Type := Except String String

/-- Modelled from the spec: the retry machinery of the third-party
`backoff.on_exception(backoff.expo, Exception, max_tries, max_time)`
decorator (not part of this repository).  Attempt `tries` is made; on
success its value is returned; on failure the loop gives up — re-raising
the last exception — once the attempt budget is exhausted or the elapsed
time has reached `maxTime`, and otherwise sleeps `2 ^ tries` seconds
(exponential backoff) before retrying. -/
def backoffRun (outcomes : Nat → LoaderOutcome) (maxTries maxTime : Nat)
    (tries elapsed : Nat) : LoaderOutcome :=
  match outcomes tries with
  | .ok v => .ok v
  | .error e =>
    if maxTries ≤ tries + 1 ∨ maxTime ≤ elapsed then .error e
    else backoffRun outcomes maxTries maxTime (tries + 1) (elapsed + 2 ^ tries)
termination_by maxTries - tries
decreasing_by omega

/-- `load_youtube`'s fetch phase: `_loader` decorated with
`max_tries=8, max_time=60`. -/
def load_youtube_fetch (outcomes : Nat → LoaderOutcome) : LoaderOutcome :=
  backoffRun outcomes 8 60 0 0

/-! ### ContentSniffer (`tools/utils.py`, `is_text_file`) -/

/-- A UTF-8 continuation byte (`0x80`–`0xBF`). -/
def utf8Cont (b : Nat) : Bool :=
  128 ≤ b && b ≤ 191

/-- Number of bytes of the UTF-8 sequence introduced by lead byte `b`, or
`none` when `b` cannot start a sequence (stray continuation bytes, the
overlong leads 0xC0/0xC1, and 0xF5-0xFF, which CPython rejects). -/
def utf8SeqLen (b : Nat) : Option Nat :=
  if b ≤ 0x7F then some 1
  else if 0xC2 ≤ b ∧ b ≤ 0xDF then some 2
  else if 0xE0 ≤ b ∧ b ≤ 0xEF then some 3
  else if 0xF0 ≤ b ∧ b ≤ 0xF4 then some 4
  else none

/-- Lower bound for the first continuation byte after lead `b` (CPython
rejects overlong 3- and 4-byte forms at E0/F0). -/
def utf8Lo (b : Nat) : Nat :=
  if b = 0xE0 then 0xA0 else if b = 0xF0 then 0x90 else 0x80

/-- Upper bound for the first continuation byte after lead `b` (CPython
rejects surrogates at ED and code points above U+10FFFF at F4). -/
def utf8Hi (b : Nat) : Nat :=
  if b = 0xED then 0x9F else if b = 0xF4 then 0x8F else 0xBF

/-- Decode one code point from the front of the buffer, returning it with
the remaining bytes; `none` where CPython strict decoding raises. -/
def utf8Step : List Nat → Option (Nat × List Nat)
  | [] => none
  | b :: rest =>
    match utf8SeqLen b with
    | some 1 => some (b, rest)
    | some 2 =>
      match rest with
      | b1 :: r =>
        if utf8Lo b ≤ b1 ∧ b1 ≤ utf8Hi b then
          some ((b - 0xC0) * 64 + (b1 - 0x80), r)
        else none
      | [] => none
    | some 3 =>
      match rest with
      | b1 :: b2 :: r =>
        if (utf8Lo b ≤ b1 ∧ b1 ≤ utf8Hi b) ∧ utf8Cont b2 then
          some ((b - 0xE0) * 4096 + (b1 - 0x80) * 64 + (b2 - 0x80), r)
        else none
      | _ => none
    | some 4 =>
      match rest with
      | b1 :: b2 :: b3 :: r =>
        if ((utf8Lo b ≤ b1 ∧ b1 ≤ utf8Hi b) ∧ utf8Cont b2) ∧ utf8Cont b3 then
          some ((b - 0xF0) * 262144 + (b1 - 0x80) * 4096
                + (b2 - 0x80) * 64 + (b3 - 0x80), r)
        else none
      | _ => none
    | _ => none

/-- Fuel-driven decoding loop; one unit of fuel per decoded code point
(a buffer of `n` bytes holds at least as many bytes as code points). -/
def utf8DecodeLoop : Nat → List Nat → Option (List Nat)
  | _, [] => some []
  | 0, _ :: _ => none
  | fuel + 1, b :: rest =>
    match utf8Step (b :: rest) with
    | none => none
    | some (cp, r) => (utf8DecodeLoop fuel r).map (fun cs => cp :: cs)

/-- Strict UTF-8 decoder over bytes, modelling `bytes.decode("utf-8")`:
returns the code points, or `none` exactly where CPython raises
`UnicodeDecodeError` (overlong forms, surrogates, values above
`U+10FFFF`, truncated or stray sequences). -/
def utf8Decode (l : List Nat) : Option (List Nat) :=
  utf8DecodeLoop l.length l

/-- Spec-side UTF-8 validity of a byte buffer: the grammar of well-formed
sequences, stated independently of the decoding loop. -/
inductive ValidUtf8 : List Nat → Prop
  | nil : ValidUtf8 []
  | one {b r} : b ≤ 0x7F → ValidUtf8 r → ValidUtf8 (b :: r)
  | two {b b1 r} : 0xC2 ≤ b → b ≤ 0xDF → 0x80 ≤ b1 → b1 ≤ 0xBF →
      ValidUtf8 r → ValidUtf8 (b :: b1 :: r)
  | three {b b1 b2 r} : 0xE0 ≤ b → b ≤ 0xEF →
      (if b = 0xE0 then 0xA0 else 0x80) ≤ b1 →
      b1 ≤ (if b = 0xED then 0x9F else 0xBF) →
      0x80 ≤ b2 → b2 ≤ 0xBF →
      ValidUtf8 r → ValidUtf8 (b :: b1 :: b2 :: r)
  | four {b b1 b2 b3 r} : 0xF0 ≤ b → b ≤ 0xF4 →
      (if b = 0xF0 then 0x90 else 0x80) ≤ b1 →
      b1 ≤ (if b = 0xF4 then 0x8F else 0xBF) →
      0x80 ≤ b2 → b2 ≤ 0xBF → 0x80 ≤ b3 → b3 ≤ 0xBF →
      ValidUtf8 r → ValidUtf8 (b :: b1 :: b2 :: b3 :: r)

/-- What the attempt to read a file observed: an I/O failure (missing
file, permission, ...) or the raw bytes. -/
inductive FileRead : Type
  | ioError
  | bytes (content : List Nat)

/-- `is_text_file` from `tools/utils.py`: read the first 1024 bytes and
try `chunk.decode("utf-8")`; `UnicodeDecodeError` and every other
exception yield `False`. -/
def is_text_file : FileRead → Bool
  | .ioError => false
  | .bytes content => (utf8Decode (content.take 1024)).isSome

/-! ### AttachmentPresenter (`agent.py`, `BasicAgent.__call__`) -/

/-- The attachment-handling block of `BasicAgent.__call__`.  `pathExists`
models `os.path.exists(file_path)`, `file` is what reading the file for
the sniffer observed, `decodedContent` is the text produced by
`open(..., errors="ignore").read()`, and `suffix` is
`Path(file_path).suffix`. -/
def basic_agent_prompt (question file_path : String) (pathExists : Bool)
    (file : FileRead) (decodedContent : String) (suffix : String) : String :=
  if file_path ≠ "" ∧ pathExists then
    if is_text_file file then
      if suffix = ".py" then
        question ++ "\nAttached Python code file: " ++ file_path
      else
        question ++ "\nAttached File Content:\n" ++ decodedContent
    else
      if suffix = ".mp3" then
        question ++ "\nUse the \x27transcribe_audio\x27 tool to extract text from the mp3 file."
          ++ "\nAttached mp3 file: " ++ file_path
      else
        question ++ "\nAttached File Path: " ++ file_path
  else question

/-! ## Helper lemmas -/

/-- The token scan hits `some n` exactly when the token list decomposes
into a (possibly empty) unparseable prefix followed by a token parsing
to `n`. -/
theorem firstIntToken_eq_some_iff (ts : List (List Char)) (n : Int) :
    firstIntToken ts = some n ↔
      ∃ pre t post, ts = pre ++ t :: post ∧
        (∀ u ∈ pre, pyIntParse u = none) ∧ pyIntParse t = some n := by
  induction ts with
  | nil =>
    simp only [firstIntToken]
    constructor
    · intro h; exact absurd h (by simp)
    · rintro ⟨pre, t, post, h, -, -⟩
      exact absurd h (by simp)
  | cons a ts ih =>
    simp only [firstIntToken]
    cases ha : pyIntParse a with
    | some m =>
      constructor
      · intro h
        exact ⟨[], a, ts, rfl, by simp, by rw [ha]; exact h⟩
      · rintro ⟨pre, t, post, hdec, hpre, ht⟩
        cases pre with
        | nil =>
          simp only [List.nil_append, List.cons.injEq] at hdec
          rw [hdec.1] at ha; rw [ha] at ht; exact ht
        | cons b pre =>
          simp only [List.cons_append, List.cons.injEq] at hdec
          have : pyIntParse a = none := hdec.1 ▸ hpre b (by simp)
          rw [this] at ha; exact absurd ha (by simp)
    | none =>
      rw [ih]
      constructor
      · rintro ⟨pre, t, post, hdec, hpre, ht⟩
        refine ⟨a :: pre, t, post, by simp [hdec], ?_, ht⟩
        intro u hu
        rcases List.mem_cons.mp hu with h | h
        · rw [h]; exact ha
        · exact hpre u h
      · rintro ⟨pre, t, post, hdec, hpre, ht⟩
        cases pre with
        | nil =>
          simp only [List.nil_append, List.cons.injEq] at hdec
          rw [hdec.1] at ha; rw [ha] at ht; exact absurd ht (by simp)
        | cons b pre =>
          simp only [List.cons_append, List.cons.injEq] at hdec
          exact ⟨pre, t, post, hdec.2, fun u hu => hpre u (by simp [hu]), ht⟩

/-- The token scan returns `none` exactly when no token parses. -/
theorem firstIntToken_eq_none_iff (ts : List (List Char)) :
    firstIntToken ts = none ↔ ∀ u ∈ ts, pyIntParse u = none := by
  induction ts with
  | nil => simp [firstIntToken]
  | cons a ts ih =>
    simp only [firstIntToken]
    cases ha : pyIntParse a with
    | some m => simp [ha]
    | none => simpa [ha] using ih

/-- Unfolding: a nonempty content with positive chunk size yields a head
chunk and the chunks of the rest. -/
theorem chunkContent_cons_of (k : Nat) (c : List Char)
    (h : ¬(c = [] ∨ k = 0)) :
    chunkContent k c = c.take k :: chunkContent k (c.drop k) := by
  rw [chunkContent]; rw [dif_neg h]

/-- Unfolding: empty content yields no chunks. -/
theorem chunkContent_nil (k : Nat) : chunkContent k [] = [] := by
  rw [chunkContent]; simp

/-- Concatenating the chunks reconstructs the content. -/
theorem chunkContent_flatten (k : Nat) (c : List Char) (hk : 0 < k) :
    (chunkContent k c).flatten = c := by
  induction c using chunkContent.induct k with
  | case1 c h =>
    rcases h with h | h
    · subst h; rw [chunkContent_nil]; rfl
    · omega
  | case2 c h ih =>
    rw [chunkContent_cons_of k c h, List.flatten_cons, ih,
      List.take_append_drop]

/-- The number of chunks is `ceil (length / k)`. -/
theorem chunkContent_length (k : Nat) (c : List Char) (hk : 0 < k) :
    (chunkContent k c).length = (c.length + k - 1) / k := by
  induction c using chunkContent.induct k with
  | case1 c h =>
    rcases h with h | h
    · subst h
      rw [chunkContent_nil]
      simp only [List.length_nil]
      rw [Nat.div_eq_of_lt (by omega : 0 + k - 1 < k)]
    · omega
  | case2 c h ih =>
    rw [chunkContent_cons_of k c h, List.length_cons, ih, List.length_drop]
    have hc : c ≠ [] := fun hh => h (Or.inl hh)
    have hlen : 0 < c.length := List.length_pos.mpr hc
    by_cases hck : c.length ≤ k
    · have hdrop : c.length - k = 0 := by omega
      rw [hdrop]
      rw [Nat.div_eq_of_lt (by omega : 0 + k - 1 < k)]
      have h1 : c.length + k - 1 = (c.length - 1) + k := by omega
      rw [h1, Nat.add_div_right _ hk,
        Nat.div_eq_of_lt (by omega : c.length - 1 < k)]
    · push_neg at hck
      have h2 : c.length - k + k - 1 = (c.length - k - 1) + k := by omega
      rw [h2, Nat.add_div_right _ hk]
      have h3 : c.length + k - 1 = (c.length - 1) + k := by omega
      rw [h3, Nat.add_div_right _ hk]
      have h4 : c.length - 1 = (c.length - k - 1) + k := by omega
      rw [h4, Nat.add_div_right _ hk]

/-- Every chunk except possibly the last has length exactly `k`. -/
theorem chunkContent_dropLast_length (k : Nat) (c : List Char) :
    ∀ l ∈ (chunkContent k c).dropLast, l.length = k := by
  induction c using chunkContent.induct k with
  | case1 c h =>
    rw [chunkContent]; rw [dif_pos h]; simp
  | case2 c h ih =>
    rw [chunkContent_cons_of k c h]
    by_cases hrest : chunkContent k (c.drop k) = []
    · rw [hrest]; simp
    · rw [List.dropLast_cons_of_ne_nil hrest]
      intro l hl
      rcases List.mem_cons.mp hl with h1 | h1
      · subst h1
        rw [List.length_take]
        have hdlen : c.drop k ≠ [] := by
          intro hd; apply hrest; rw [hd, chunkContent_nil]
        have hkc : ¬ c.length ≤ k :=
          fun hle => hdlen (List.drop_eq_nil_iff.mpr hle)
        exact Nat.min_eq_left (by omega)
      · exact ih l h1

/-- Every chunk has length at most `k`. -/
theorem chunkContent_length_le (k : Nat) (c : List Char) :
    ∀ l ∈ chunkContent k c, l.length ≤ k := by
  induction c using chunkContent.induct k with
  | case1 c h =>
    rw [chunkContent]; rw [dif_pos h]; simp
  | case2 c h ih =>
    rw [chunkContent_cons_of k c h]
    intro l hl
    rcases List.mem_cons.mp hl with h1 | h1
    · subst h1; rw [List.length_take]; exact Nat.min_le_left _ _
    · exact ih l h1

/-- `containsSub` decides the infix relation. -/
theorem containsSub_iff_infix (needle hay : List Char) :
    containsSub needle hay = true ↔ needle <:+: hay := by
  induction hay with
  | nil =>
    simp [containsSub, List.isEmpty_iff]
  | cons a t ih =>
    simp only [containsSub, Bool.or_eq_true, List.isPrefixOf_iff_prefix, ih,
      List.infix_cons_iff]

/-- `strIndex` finds an occurrence, and the first one. -/
theorem strIndex_some (needle hay : List Char) (i : Nat)
    (h : strIndex needle hay = some i) :
    needle <+: hay.drop i ∧ ∀ j, j < i → ¬ needle <+: hay.drop j := by
  induction hay generalizing i with
  | nil =>
    simp only [strIndex] at h
    by_cases hne : needle.isEmpty
    · rw [if_pos hne] at h
      cases h
      refine ⟨?_, fun j hj => absurd hj (by omega)⟩
      simp [List.isEmpty_iff.mp hne]
    · rw [if_neg hne] at h; cases h
  | cons a t ih =>
    simp only [strIndex] at h
    by_cases hp : needle.isPrefixOf (a :: t)
    · rw [if_pos hp] at h
      cases h
      exact ⟨List.isPrefixOf_iff_prefix.mp hp,
        fun j hj => absurd hj (by omega)⟩
    · rw [if_neg hp] at h
      cases hs : strIndex needle t with
      | none => rw [hs] at h; cases h
      | some i' =>
        rw [hs] at h
        simp only [Option.map_some'] at h
        obtain ⟨h1, h2⟩ := ih i' hs
        cases h
        refine ⟨by simpa using h1, ?_⟩
        intro j hj
        cases j with
        | zero =>
          simpa [List.isPrefixOf_iff_prefix] using hp
        | succ j' =>
          simpa using h2 j' (by omega)

/-- When `strIndex` reports no occurrence there is none. -/
theorem strIndex_none (needle hay : List Char)
    (h : strIndex needle hay = none) :
    ∀ j, ¬ needle <+: hay.drop j := by
  induction hay with
  | nil =>
    simp only [strIndex] at h
    by_cases hne : needle.isEmpty
    · rw [if_pos hne] at h; cases h
    · rw [if_neg hne] at h
      intro j hp
      rw [List.drop_nil] at hp
      rw [List.prefix_nil.mp hp] at hne
      exact hne rfl
  | cons a t ih =>
    simp only [strIndex] at h
    by_cases hp : needle.isPrefixOf (a :: t)
    · rw [if_pos hp] at h; cases h
    · rw [if_neg hp] at h
      cases hs : strIndex needle t with
      | some i' => rw [hs] at h; cases h
      | none =>
        intro j
        cases j with
        | zero =>
          simpa [List.isPrefixOf_iff_prefix] using hp
        | succ j' =>
          simpa using ih hs j'

/-- `containsSub` coincides with `strIndex` succeeding (python's `in`
versus `.index`). -/
theorem containsSub_eq_isSome (needle hay : List Char) :
    containsSub needle hay = (strIndex needle hay).isSome := by
  induction hay with
  | nil =>
    by_cases hne : needle.isEmpty <;> simp [containsSub, strIndex, hne]
  | cons a t ih =>
    by_cases hp : needle.isPrefixOf (a :: t) <;>
      simp [containsSub, strIndex, hp, ih]

/-- A valid nonempty buffer admits a decoding step whose remainder is
valid again. -/
theorem utf8Step_complete {l : List Nat} (hv : ValidUtf8 l) (hne : l ≠ []) :
    ∃ cp r, utf8Step l = some (cp, r) ∧ ValidUtf8 r := by
  cases hv with
  | nil => exact absurd rfl hne
  | @one b r hb hr =>
    refine ⟨b, r, ?_, hr⟩
    rw [utf8Step.eq_def]
    have hsl : utf8SeqLen b = some 1 := by
      unfold utf8SeqLen; rw [if_pos hb]
    simp [hsl]
  | @two b b1 r h1 h2 h3 h4 hr =>
    refine ⟨(b - 0xC0) * 64 + (b1 - 0x80), r, ?_, hr⟩
    rw [utf8Step.eq_def]
    have hsl : utf8SeqLen b = some 2 := by
      unfold utf8SeqLen; rw [if_neg (by omega), if_pos ⟨h1, h2⟩]
    have hl : utf8Lo b = 0x80 := by
      unfold utf8Lo; rw [if_neg (by omega), if_neg (by omega)]
    have hh : utf8Hi b = 0xBF := by
      unfold utf8Hi; rw [if_neg (by omega), if_neg (by omega)]
    simp only [hsl, hl, hh]
    rw [if_pos ⟨h3, h4⟩]
  | @three b b1 b2 r h1 h2 h3 h4 h5 h6 hr =>
    refine ⟨(b - 0xE0) * 4096 + (b1 - 0x80) * 64 + (b2 - 0x80), r, ?_, hr⟩
    rw [utf8Step.eq_def]
    have hsl : utf8SeqLen b = some 3 := by
      unfold utf8SeqLen
      rw [if_neg (by omega), if_neg (by omega), if_pos ⟨h1, h2⟩]
    have hl : utf8Lo b = if b = 0xE0 then 0xA0 else 0x80 := by
      unfold utf8Lo
      have hf : b ≠ 0xF0 := by omega
      rcases eq_or_ne b 0xE0 with he | he
      · rw [if_pos he, if_pos he]
      · rw [if_neg he, if_neg hf, if_neg he]
    have hh : utf8Hi b = if b = 0xED then 0x9F else 0xBF := by
      unfold utf8Hi
      have hf : b ≠ 0xF4 := by omega
      rcases eq_or_ne b 0xED with he | he
      · rw [if_pos he, if_pos he]
      · rw [if_neg he, if_neg hf, if_neg he]
    have hc2 : utf8Cont b2 = true := by
      simp only [utf8Cont, Bool.and_eq_true, decide_eq_true_eq]
      omega
    simp only [hsl, hl, hh]
    rw [if_pos ⟨⟨h3, h4⟩, hc2⟩]
  | @four b b1 b2 b3 r h1 h2 h3 h4 h5 h6 h7 h8 hr =>
    refine ⟨(b - 0xF0) * 262144 + (b1 - 0x80) * 4096 + (b2 - 0x80) * 64
      + (b3 - 0x80), r, ?_, hr⟩
    rw [utf8Step.eq_def]
    have hsl : utf8SeqLen b = some 4 := by
      unfold utf8SeqLen
      rw [if_neg (by omega), if_neg (by omega), if_neg (by omega),
        if_pos ⟨h1, h2⟩]
    have hl : utf8Lo b = if b = 0xF0 then 0x90 else 0x80 := by
      unfold utf8Lo
      rw [if_neg (by omega : b ≠ 0xE0)]
    have hh : utf8Hi b = if b = 0xF4 then 0x8F else 0xBF := by
      unfold utf8Hi
      rw [if_neg (by omega : b ≠ 0xED)]
    have hc2 : utf8Cont b2 = true := by
      simp only [utf8Cont, Bool.and_eq_true, decide_eq_true_eq]
      omega
    have hc3 : utf8Cont b3 = true := by
      simp only [utf8Cont, Bool.and_eq_true, decide_eq_true_eq]
      omega
    simp only [hsl, hl, hh]
    rw [if_pos ⟨⟨⟨h3, h4⟩, hc2⟩, hc3⟩]

/-- Inversion for `utf8SeqLen`. -/
theorem utf8SeqLen_inv (b n : Nat) (h : utf8SeqLen b = some n) :
    (n = 1 ∧ b ≤ 0x7F) ∨ (n = 2 ∧ 0xC2 ≤ b ∧ b ≤ 0xDF) ∨
    (n = 3 ∧ 0xE0 ≤ b ∧ b ≤ 0xEF) ∨ (n = 4 ∧ 0xF0 ≤ b ∧ b ≤ 0xF4) := by
  unfold utf8SeqLen at h
  split_ifs at h with h1 h2 h3 h4 <;> simp_all

/-- A successful decoding step consumes at least one byte, and its
remainder being valid makes the whole buffer valid. -/
theorem utf8Step_sound (l : List Nat) (cp : Nat) (r : List Nat)
    (h : utf8Step l = some (cp, r)) :
    r.length < l.length ∧ (ValidUtf8 r → ValidUtf8 l) := by
  match l with
  | [] =>
    simp only [utf8Step.eq_def] at h
    exact absurd h (by simp)
  | b :: rest =>
    cases hsl : utf8SeqLen b with
    | none =>
      simp only [utf8Step.eq_def, hsl] at h
      exact absurd h (by simp)
    | some n =>
      rcases utf8SeqLen_inv b n hsl with ⟨hn, hb⟩ | ⟨hn, hb1, hb2⟩
        | ⟨hn, hb1, hb2⟩ | ⟨hn, hb1, hb2⟩ <;> subst hn
      · simp only [utf8Step.eq_def, hsl, Option.some.injEq,
          Prod.mk.injEq] at h
        obtain ⟨hcp, hrest⟩ := h
        subst hrest
        exact ⟨by simp, fun hv => ValidUtf8.one hb hv⟩
      · match rest with
        | [] =>
          simp only [utf8Step.eq_def, hsl] at h
          exact absurd h (by simp)
        | b1 :: r1 =>
          simp only [utf8Step.eq_def, hsl] at h
          split_ifs at h with hc
          simp only [Option.some.injEq, Prod.mk.injEq] at h
          obtain ⟨hcp, hr1⟩ := h
          subst hr1
          have hl : utf8Lo b = 0x80 := by
            unfold utf8Lo; rw [if_neg (by omega), if_neg (by omega)]
          have hh : utf8Hi b = 0xBF := by
            unfold utf8Hi; rw [if_neg (by omega), if_neg (by omega)]
          rw [hl, hh] at hc
          exact ⟨by simp; omega, fun hv => ValidUtf8.two hb1 hb2 hc.1 hc.2 hv⟩
      · match rest with
        | [] =>
          simp only [utf8Step.eq_def, hsl] at h
          exact absurd h (by simp)
        | [b1] =>
          simp only [utf8Step.eq_def, hsl] at h
          exact absurd h (by simp)
        | b1 :: b2 :: r1 =>
          simp only [utf8Step.eq_def, hsl] at h
          split_ifs at h with hc
          simp only [Option.some.injEq, Prod.mk.injEq] at h
          obtain ⟨hcp, hr1⟩ := h
          subst hr1
          have hl : utf8Lo b = if b = 0xE0 then 0xA0 else 0x80 := by
            unfold utf8Lo
            have hf : b ≠ 0xF0 := by omega
            rcases eq_or_ne b 0xE0 with he | he
            · rw [if_pos he, if_pos he]
            · rw [if_neg he, if_neg hf, if_neg he]
          have hh : utf8Hi b = if b = 0xED then 0x9F else 0xBF := by
            unfold utf8Hi
            have hf : b ≠ 0xF4 := by omega
            rcases eq_or_ne b 0xED with he | he
            · rw [if_pos he, if_pos he]
            · rw [if_neg he, if_neg hf, if_neg he]
          rw [hl, hh] at hc
          have hc2 : 0x80 ≤ b2 ∧ b2 ≤ 0xBF := by
            have := hc.2
            simp only [utf8Cont, Bool.and_eq_true, decide_eq_true_eq] at this
            omega
          refine ⟨by simp; omega, fun hv =>
            ValidUtf8.three hb1 hb2 hc.1.1 hc.1.2 hc2.1 hc2.2 hv⟩
      · match rest with
        | [] =>
          simp only [utf8Step.eq_def, hsl] at h
          exact absurd h (by simp)
        | [b1] =>
          simp only [utf8Step.eq_def, hsl] at h
          exact absurd h (by simp)
        | [b1, b2] =>
          simp only [utf8Step.eq_def, hsl] at h
          exact absurd h (by simp)
        | b1 :: b2 :: b3 :: r1 =>
          simp only [utf8Step.eq_def, hsl] at h
          split_ifs at h with hc
          simp only [Option.some.injEq, Prod.mk.injEq] at h
          obtain ⟨hcp, hr1⟩ := h
          subst hr1
          have hl : utf8Lo b = if b = 0xF0 then 0x90 else 0x80 := by
            unfold utf8Lo
            rw [if_neg (by omega : ¬ b = 0xE0)]
          have hh : utf8Hi b = if b = 0xF4 then 0x8F else 0xBF := by
            unfold utf8Hi
            rw [if_neg (by omega : ¬ b = 0xED)]
          rw [hl, hh] at hc
          have hc2 : 0x80 ≤ b2 ∧ b2 ≤ 0xBF := by
            have := hc.1.2
            simp only [utf8Cont, Bool.and_eq_true, decide_eq_true_eq] at this
            omega
          have hc3 : 0x80 ≤ b3 ∧ b3 ≤ 0xBF := by
            have := hc.2
            simp only [utf8Cont, Bool.and_eq_true, decide_eq_true_eq] at this
            omega
          refine ⟨by simp; omega, fun hv =>
            ValidUtf8.four hb1 hb2 hc.1.1.1 hc.1.1.2 hc2.1 hc2.2
              hc3.1 hc3.2 hv⟩

/-- With enough fuel, the decoding loop succeeds exactly on buffers the
UTF-8 grammar accepts. -/
theorem utf8DecodeLoop_isSome (fuel : Nat) :
    ∀ l : List Nat, l.length ≤ fuel →
      ((utf8DecodeLoop fuel l).isSome = true ↔ ValidUtf8 l) := by
  induction fuel with
  | zero =>
    intro l hl
    match l with
    | [] =>
      rw [utf8DecodeLoop]
      exact ⟨fun _ => ValidUtf8.nil, fun _ => rfl⟩
    | b :: rest => simp at hl
  | succ fuel ih =>
    intro l hl
    match l with
    | [] =>
      rw [utf8DecodeLoop]
      exact ⟨fun _ => ValidUtf8.nil, fun _ => rfl⟩
    | b :: rest =>
      rw [utf8DecodeLoop]
      cases hs : utf8Step (b :: rest) with
      | none =>
        simp only [hs, Option.isSome_none]
        constructor
        · intro hfalse; cases hfalse
        · intro hv
          obtain ⟨cp, r, hstep, -⟩ :=
            utf8Step_complete hv (by simp)
          rw [hstep] at hs; cases hs
      | some cpr =>
        obtain ⟨cp, r⟩ := cpr
        obtain ⟨hlen, hsound⟩ := utf8Step_sound _ _ _ hs
        have hr : r.length ≤ fuel := by
          simp only [List.length_cons] at hlen hl; omega
        simp only [hs, Option.isSome_map']
        rw [ih r hr]
        constructor
        · exact hsound
        · intro hv
          obtain ⟨cp2, r2, hstep2, hvr2⟩ :=
            utf8Step_complete hv (by simp)
          rw [hstep2] at hs
          cases hs
          exact hvr2

/-! ## Claims -/

/-- C1 (amended): with exit code 0 and empty stderr (and no timeout),
`execute_python_file` scans the whitespace-separated tokens of stdout in
order and returns the canonical decimal form of the first token parseable
as an integer; if no token parses it returns the trimmed stdout when that
is nonempty, and the sentinel "Script executed successfully with no
output" when the trimmed stdout is empty (in particular when stdout is
empty). -/
theorem execute_python_file_stdout_extraction
    (file_path stdout : String) (duration : Nat)
    (hpy : (".py" : String).data.isSuffixOf file_path.data = true)
    (hd : duration ≤ 180) :
    (∃ pre t post n, splitWs stdout.data = pre ++ t :: post ∧
        (∀ u ∈ pre, pyIntParse u = none) ∧ pyIntParse t = some n ∧
        execute_python_file true file_path (.runs duration stdout "" 0)
          = toString n)
    ∨ ((∀ u ∈ splitWs stdout.data, pyIntParse u = none) ∧
        (pyStripS stdout ≠ "" →
          execute_python_file true file_path (.runs duration stdout "" 0)
            = pyStripS stdout) ∧
        (pyStripS stdout = "" →
          execute_python_file true file_path (.runs duration stdout "" 0)
            = "Script executed successfully with no output")) := by
  have hrun : execute_python_file true file_path (.runs duration stdout "" 0)
      = match firstIntToken (splitWs stdout.data) with
        | some n => toString n
        | none =>
          if pyStripS stdout ≠ "" then pyStripS stdout
          else "Script executed successfully with no output" := by
    simp only [execute_python_file, hpy, Bool.not_true, Bool.false_eq_true,
      if_false, Bool.not_false, if_true]
    have : ¬ executeTimeoutSeconds < duration := by
      simp only [executeTimeoutSeconds]; omega
    simp [this]
  cases hf : firstIntToken (splitWs stdout.data) with
  | some n =>
    left
    obtain ⟨pre, t, post, hdec, hpre, ht⟩ :=
      (firstIntToken_eq_some_iff (splitWs stdout.data) n).mp hf
    exact ⟨pre, t, post, n, hdec, hpre, ht, by rw [hrun, hf]⟩
  | none =>
    right
    refine ⟨(firstIntToken_eq_none_iff (splitWs stdout.data)).mp hf, ?_, ?_⟩
    · intro hne; rw [hrun, hf]; simp [hne]
    · intro he; rw [hrun, hf]; simp [he]

/-- C1 witness: on stdout "done 42\n" the executor returns "42". -/
theorem execute_python_file_stdout_extraction_witness :
    (∃ pre t post n, splitWs ("done 42\n" : String).data = pre ++ t :: post ∧
        (∀ u ∈ pre, pyIntParse u = none) ∧ pyIntParse t = some n ∧
        execute_python_file true "s.py" (.runs 0 "done 42\n" "" 0)
          = toString n)
    ∨ ((∀ u ∈ splitWs ("done 42\n" : String).data, pyIntParse u = none) ∧
        (pyStripS "done 42\n" ≠ "" →
          execute_python_file true "s.py" (.runs 0 "done 42\n" "" 0)
            = pyStripS "done 42\n") ∧
        (pyStripS "done 42\n" = "" →
          execute_python_file true "s.py" (.runs 0 "done 42\n" "" 0)
            = "Script executed successfully with no output")) :=
  execute_python_file_stdout_extraction "s.py" "done 42\n" 0 (by decide)
    (by decide)

/-- C1 counterexample: the sentinel for empty output is
"Script executed successfully with no output", not "executed with no
output"; and whitespace-only stdout also yields the sentinel rather than
the trimmed stdout (which is empty there). -/
theorem execute_python_file_sentinel_counterexample :
    execute_python_file true "s.py" (.runs 0 "" "" 0)
        ≠ "executed with no output" ∧
    execute_python_file true "s.py" (.runs 0 " " "" 0)
        = "Script executed successfully with no output" ∧
    pyStripS " " = "" := by decide

/-- C5: a missing path or a non-`.py` path makes `execute_python_file`
return a descriptive string beginning with "Error:" (it never raises:
the model is a total function into strings). -/
theorem execute_python_file_invalid_input_error
    (pathExists : Bool) (file_path : String) (behavior : RunBehavior)
    (h : pathExists = false ∨ (".py" : String).data.isSuffixOf file_path.data = false) :
    ("Error:" : String).data
        <+: (execute_python_file pathExists file_path behavior).data ∧
    (execute_python_file pathExists file_path behavior
        = "Error: File not found: " ++ file_path ∨
     execute_python_file pathExists file_path behavior
        = "Error: File is not a Python file: " ++ file_path) := by
  cases hp : pathExists with
  | false =>
    have hres : execute_python_file false file_path behavior
        = "Error: File not found: " ++ file_path := by
      simp [execute_python_file]
    refine ⟨?_, Or.inl hres⟩
    rw [hres, String.data_append]
    refine ⟨(" File not found: " : String).data ++ file_path.data, ?_⟩
    rw [← List.append_assoc]
    have hcat : ("Error:" : String).data ++ (" File not found: " : String).data
        = ("Error: File not found: " : String).data := by decide
    rw [hcat]
  | true =>
    have hpyf : (".py" : String).data.isSuffixOf file_path.data = false := by
      rcases h with h | h
      · exact absurd (hp ▸ h) (by simp)
      · exact h
    have hres : execute_python_file true file_path behavior
        = "Error: File is not a Python file: " ++ file_path := by
      simp [execute_python_file, hpyf]
    refine ⟨?_, Or.inr hres⟩
    rw [hres, String.data_append]
    refine ⟨(" File is not a Python file: " : String).data ++ file_path.data, ?_⟩
    rw [← List.append_assoc]
    have hcat : ("Error:" : String).data
          ++ (" File is not a Python file: " : String).data
        = ("Error: File is not a Python file: " : String).data := by decide
    rw [hcat]

/-- C5 witness: a nonexistent path yields the "Error: File not found"
string. -/
theorem execute_python_file_invalid_input_error_witness :
    ("Error:" : String).data
        <+: (execute_python_file false "ghost.py" (.runs 0 "" "" 0)).data ∧
    (execute_python_file false "ghost.py" (.runs 0 "" "" 0)
        = "Error: File not found: " ++ "ghost.py" ∨
     execute_python_file false "ghost.py" (.runs 0 "" "" 0)
        = "Error: File is not a Python file: " ++ "ghost.py") :=
  execute_python_file_invalid_input_error false "ghost.py" (.runs 0 "" "" 0)
    (Or.inl rfl)

/-- C2: for every content string and chunk size k > 0, the partition step
of `optimized_web_search` produces contiguous non-overlapping chunks whose
concatenation reconstructs the content exactly; the chunk count is
ceil(len/k); every chunk except possibly the last has length exactly k;
and every chunk has length at most k. -/
theorem chunkContent_partition_spec (c : String) (k : Nat) (hk : 0 < k) :
    (chunkContent k c.data).flatten = c.data ∧
    (chunkContent k c.data).length = (c.data.length + k - 1) / k ∧
    (∀ l ∈ (chunkContent k c.data).dropLast, l.length = k) ∧
    (∀ l ∈ chunkContent k c.data, l.length ≤ k) :=
  ⟨chunkContent_flatten k c.data hk, chunkContent_length k c.data hk,
   chunkContent_dropLast_length k c.data, chunkContent_length_le k c.data⟩

/-- C2 witness: the partition of "abcdefgh" into chunks of 3. -/
theorem chunkContent_partition_witness :
    (chunkContent 3 ("abcdefgh" : String).data).flatten
        = ("abcdefgh" : String).data ∧
    (chunkContent 3 ("abcdefgh" : String).data).length
        = (("abcdefgh" : String).data.length + 3 - 1) / 3 ∧
    (∀ l ∈ (chunkContent 3 ("abcdefgh" : String).data).dropLast,
        l.length = 3) ∧
    (∀ l ∈ chunkContent 3 ("abcdefgh" : String).data, l.length ≤ 3) :=
  chunkContent_partition_spec "abcdefgh" 3 (by decide)

/-- C3: a chunk is retained by `optimized_web_search`'s filter iff some
keyword occurs in it as a case-insensitive substring; retained chunks keep
their input order (the filtered list is a sublist of the chunk list); and
the output is these chunks joined by a blank line (with the no-match
sentinel when that join is empty). -/
theorem optimized_web_search_filter_spec (important_words : List String)
    (c : String) (k : Nat) :
    (∀ b, b ∈ (chunkContent k c.data).filter (keywordHit important_words) ↔
        b ∈ chunkContent k c.data ∧
          ∃ w ∈ important_words, lowerL w.data <:+: lowerL b) ∧
    ((chunkContent k c.data).filter (keywordHit important_words)).Sublist
        (chunkContent k c.data) ∧
    optimized_web_search_core c important_words k
      = (if String.intercalate "\n\n"
              (((chunkContent k c.data).filter
                  (keywordHit important_words)).map String.mk) = ""
         then "No content containing the important words "
                ++ pyListRepr important_words
                ++ " was found in the search results."
         else String.intercalate "\n\n"
                (((chunkContent k c.data).filter
                    (keywordHit important_words)).map String.mk)) := by
  refine ⟨?_, List.filter_sublist _, rfl⟩
  intro b
  simp only [List.mem_filter, keywordHit, List.any_eq_true,
    containsSub_iff_infix]

/-- C4: `load_youtube` lowercases the transcript, removes periods and
question marks from the phrase and lowercases it; when the normalised
phrase occurs, the returned content is the suffix of the (lowercased)
transcript starting at the first occurrence; when it does not occur, the
full (lowercased) transcript is returned. -/
theorem load_youtube_anchor_spec (transcript phrase : String) :
    ((∃ i, lowerL (removeAll '?' (removeAll '.' phrase.data))
            <+: (lowerL transcript.data).drop i) →
      ∃ i, load_youtube_post transcript.data phrase.data
              = (lowerL transcript.data).drop i ∧
           lowerL (removeAll '?' (removeAll '.' phrase.data))
              <+: (lowerL transcript.data).drop i ∧
           ∀ j, j < i → ¬ lowerL (removeAll '?' (removeAll '.' phrase.data))
              <+: (lowerL transcript.data).drop j) ∧
    ((∀ j, ¬ lowerL (removeAll '?' (removeAll '.' phrase.data))
          <+: (lowerL transcript.data).drop j) →
      load_youtube_post transcript.data phrase.data
        = lowerL transcript.data) := by
  set p := lowerL (removeAll '?' (removeAll '.' phrase.data)) with hpdef
  set content := lowerL transcript.data with hcdef
  have hpost : load_youtube_post transcript.data phrase.data
      = if containsSub p content
        then content.drop ((strIndex p content).getD 0)
        else content := rfl
  cases hs : strIndex p content with
  | some i =>
    have hc : containsSub p content = true := by
      rw [containsSub_eq_isSome, hs]; rfl
    obtain ⟨h1, h2⟩ := strIndex_some p content i hs
    constructor
    · intro _
      refine ⟨i, ?_, h1, h2⟩
      rw [hpost, if_pos hc, hs]
      rfl
    · intro hall
      exact absurd h1 (hall i)
  | none =>
    have hc : containsSub p content = false := by
      rw [containsSub_eq_isSome, hs]; rfl
    have hnone := strIndex_none p content hs
    constructor
    · rintro ⟨i, hi⟩
      exact absurd hi (hnone i)
    · intro _
      rw [hpost, if_neg (by simp [hc])]

/-- C4 witness: in transcript "Hello World" the phrase "World." is found
at index 6 of the lowercased content. -/
theorem load_youtube_anchor_witness :
    ∃ i, load_youtube_post ("Hello World" : String).data
            ("World." : String).data
            = (lowerL ("Hello World" : String).data).drop i ∧
         lowerL (removeAll '?' (removeAll '.' ("World." : String).data))
            <+: (lowerL ("Hello World" : String).data).drop i ∧
         ∀ j, j < i →
           ¬ lowerL (removeAll '?' (removeAll '.' ("World." : String).data))
              <+: (lowerL ("Hello World" : String).data).drop j :=
  (load_youtube_anchor_spec "Hello World" "World.").1
    ⟨6, List.isPrefixOf_iff_prefix.mp (by decide)⟩

/-- C7: `is_text_file` classifies a file as text iff its first 1024 bytes
are valid UTF-8; any I/O failure is classified binary; the model is a
total function, so it never raises. -/
theorem is_text_file_utf8_spec (r : FileRead) :
    is_text_file r = true ↔
      ∃ content, r = FileRead.bytes content ∧
        ValidUtf8 (content.take 1024) := by
  cases r with
  | ioError =>
    simp only [is_text_file]
    constructor
    · intro hfalse; cases hfalse
    · rintro ⟨c, hc, -⟩; cases hc
  | bytes content =>
    simp only [is_text_file, utf8Decode]
    rw [utf8DecodeLoop_isSome _ _ (le_refl _)]
    constructor
    · intro hv; exact ⟨content, rfl, hv⟩
    · rintro ⟨c, hc, hv⟩
      cases hc
      exact hv

/-- C8: the retry machinery treats every loader exception as transient and
retries with exponential backoff bounded by the attempt budget (8 tries)
and the time budget (60 seconds of accumulated 2^n backoff): any prefix of
failing attempts followed by a success within the budget yields that
success, and when every attempt fails the exception of the LAST attempt
made propagates — attempt index 6, since going into it the slept backoff
1+2+4+8+16+32 = 63 has reached the 60-second cap, so its failure is
re-raised (well within the 8-try cap). -/
theorem load_youtube_retry_spec :
    (∀ (outcomes : Nat → LoaderOutcome) (errs : Nat → String) (v : String)
        (j : Nat), j ≤ 6 →
        (∀ i, i < j → outcomes i = Except.error (errs i)) →
        outcomes j = Except.ok v →
        load_youtube_fetch outcomes = Except.ok v) ∧
    (∀ (outcomes : Nat → LoaderOutcome) (errs : Nat → String),
        (∀ i, outcomes i = Except.error (errs i)) →
        load_youtube_fetch outcomes = Except.error (errs 6)) := by
  constructor
  · intro outcomes errs v j hj hfail hok
    interval_cases j
    · rw [load_youtube_fetch, backoffRun, hok]
    · rw [load_youtube_fetch, backoffRun, hfail 0 (by norm_num)]
      norm_num
      rw [backoffRun, hok]
    · rw [load_youtube_fetch, backoffRun, hfail 0 (by norm_num)]
      norm_num
      rw [backoffRun, hfail 1 (by norm_num)]
      norm_num
      rw [backoffRun, hok]
    · rw [load_youtube_fetch, backoffRun, hfail 0 (by norm_num)]
      norm_num
      rw [backoffRun, hfail 1 (by norm_num)]
      norm_num
      rw [backoffRun, hfail 2 (by norm_num)]
      norm_num
      rw [backoffRun, hok]
    · rw [load_youtube_fetch, backoffRun, hfail 0 (by norm_num)]
      norm_num
      rw [backoffRun, hfail 1 (by norm_num)]
      norm_num
      rw [backoffRun, hfail 2 (by norm_num)]
      norm_num
      rw [backoffRun, hfail 3 (by norm_num)]
      norm_num
      rw [backoffRun, hok]
    · rw [load_youtube_fetch, backoffRun, hfail 0 (by norm_num)]
      norm_num
      rw [backoffRun, hfail 1 (by norm_num)]
      norm_num
      rw [backoffRun, hfail 2 (by norm_num)]
      norm_num
      rw [backoffRun, hfail 3 (by norm_num)]
      norm_num
      rw [backoffRun, hfail 4 (by norm_num)]
      norm_num
      rw [backoffRun, hok]
    · rw [load_youtube_fetch, backoffRun, hfail 0 (by norm_num)]
      norm_num
      rw [backoffRun, hfail 1 (by norm_num)]
      norm_num
      rw [backoffRun, hfail 2 (by norm_num)]
      norm_num
      rw [backoffRun, hfail 3 (by norm_num)]
      norm_num
      rw [backoffRun, hfail 4 (by norm_num)]
      norm_num
      rw [backoffRun, hfail 5 (by norm_num)]
      norm_num
      rw [backoffRun, hok]
  · intro outcomes errs h
    rw [load_youtube_fetch, backoffRun, h 0]
    norm_num
    rw [backoffRun, h 1]
    norm_num
    rw [backoffRun, h 2]
    norm_num
    rw [backoffRun, h 3]
    norm_num
    rw [backoffRun, h 4]
    norm_num
    rw [backoffRun, h 5]
    norm_num
    rw [backoffRun, h 6]
    norm_num

/-- C8 witness: a loader failing on attempts 0 and 1 and succeeding on
attempt 2 returns the success; an always-failing loader propagates the
error of the last attempt made (index 6). -/
theorem load_youtube_retry_witness :
    load_youtube_fetch
        (fun i => if i < 2 then Except.error (toString i) else Except.ok "v")
      = Except.ok "v" ∧
    load_youtube_fetch (fun i => Except.error (toString i))
      = Except.error (toString 6) :=
  ⟨load_youtube_retry_spec.1
      (fun i => if i < 2 then Except.error (toString i) else Except.ok "v")
      (fun i => toString i) "v" 2 (by norm_num)
      (fun i hi => by simp [hi]) (by norm_num),
   load_youtube_retry_spec.2 (fun i => Except.error (toString i))
      (fun i => toString i) (fun _ => rfl)⟩

/-- C9: for a nonempty existing attachment path, the presenter appends the
full decoded content for a text `.txt` file, only a reference instruction
for a text `.py` file, a transcription instruction plus the path (never
the content) for a binary `.mp3` file, and the bare path for a binary file
with any other extension. -/
theorem basic_agent_prompt_cases
    (question file_path decodedContent suffix : String) (file : FileRead)
    (hne : file_path ≠ "") :
    (is_text_file file = true → suffix = ".txt" →
      basic_agent_prompt question file_path true file decodedContent suffix
        = question ++ "\nAttached File Content:\n" ++ decodedContent) ∧
    (is_text_file file = true → suffix = ".py" →
      basic_agent_prompt question file_path true file decodedContent suffix
        = question ++ "\nAttached Python code file: " ++ file_path) ∧
    (is_text_file file = false → suffix = ".mp3" →
      basic_agent_prompt question file_path true file decodedContent suffix
        = question
          ++ "\nUse the \x27transcribe_audio\x27 tool to extract text from the mp3 file."
          ++ "\nAttached mp3 file: " ++ file_path) ∧
    (is_text_file file = false → suffix ≠ ".mp3" →
      basic_agent_prompt question file_path true file decodedContent suffix
        = question ++ "\nAttached File Path: " ++ file_path) := by
  refine ⟨?_, ?_, ?_, ?_⟩
  · intro htext hsuf
    have hnp : suffix ≠ ".py" := by rw [hsuf]; decide
    simp [basic_agent_prompt, hne, htext, hnp]
  · intro htext hsuf
    simp [basic_agent_prompt, hne, htext, hsuf]
  · intro hbin hsuf
    simp [basic_agent_prompt, hne, hbin, hsuf]
  · intro hbin hsuf
    simp [basic_agent_prompt, hne, hbin, hsuf]

/-- C9 witness: the four presenter cases at concrete inputs. -/
theorem basic_agent_prompt_cases_witness :
    basic_agent_prompt "Q" "notes.txt" true (.bytes [104, 105]) "hi" ".txt"
      = "Q" ++ "\nAttached File Content:\n" ++ "hi" ∧
    basic_agent_prompt "Q" "prog.py" true (.bytes [104, 105]) "code" ".py"
      = "Q" ++ "\nAttached Python code file: " ++ "prog.py" ∧
    basic_agent_prompt "Q" "song.mp3" true (.bytes [255]) "" ".mp3"
      = "Q"
        ++ "\nUse the \x27transcribe_audio\x27 tool to extract text from the mp3 file."
        ++ "\nAttached mp3 file: " ++ "song.mp3" ∧
    basic_agent_prompt "Q" "blob.bin" true (.bytes [255]) "" ".bin"
      = "Q" ++ "\nAttached File Path: " ++ "blob.bin" :=
  ⟨(basic_agent_prompt_cases "Q" "notes.txt" "hi" ".txt" (.bytes [104, 105])
      (by decide)).1 (by decide) rfl,
   (basic_agent_prompt_cases "Q" "prog.py" "code" ".py" (.bytes [104, 105])
      (by decide)).2.1 (by decide) rfl,
   (basic_agent_prompt_cases "Q" "song.mp3" "" ".mp3" (.bytes [255])
      (by decide)).2.2.1 (by decide) rfl,
   (basic_agent_prompt_cases "Q" "blob.bin" "" ".bin" (.bytes [255])
      (by decide)).2.2.2 (by decide) (by decide)⟩

/-- C10: the enforced wall-clock bound is 180 seconds while the sentinel
returned on timeout names 60 seconds — the two durations differ. -/
theorem execute_timeout_mismatch :
    executeTimeoutSeconds = 180 ∧
    execute_python_file true "script.py" (.runs 181 "out" "" 0)
        = timeoutSentinel ∧
    timeoutSentinel
        = "Error: Execution timed out after " ++ toString (60 : Nat)
          ++ " seconds" ∧
    (60 : Nat) ≠ executeTimeoutSeconds := by decide

end Agent
